import Mathlib

/-!
Verification development for the pindar audio-transcription CLI
(repository `richartkeil/pindar`, Go).

Shallow embedding conventions:
* Go strings are modelled as `List Char` (`GoStr`); `gs` converts a Lean
  string literal into the model.
* `strings.ToLower` is modelled on the ASCII range (`goLowerChar`); the
  filenames, extensions and format tokens the program compares against are
  all ASCII, so Unicode simple case folding beyond ASCII is not modelled.
* Path-separator handling follows the Unix build (`os.IsPathSeparator`
  accepts only `/`).
* Stateful / IO behaviour (environment, file system, terminal, network) is
  embedded by explicit state passing: every external outcome an execution
  can observe is a field of a world record, and each embedded function
  returns its result together with the effects it performed.

The repository ships two near-duplicate orchestrator variants of the same
program: the file `main.go` and an earlier variant (given here unnamed,
`src/unnamed/part_003`).  Both are embedded: namespace `PindarM` holds the
`main.go` pipeline, namespace `P3` the variant pipeline.  `config.go` is
shared by both.
-/

/-- Model of a Go string: a list of characters. -/
abbrev GoStr := List Char

/-- Converts a Lean string literal into the Go-string model. -/
def gs (s : String) : GoStr := s.data

/-- Model of Go `strings.ToLower` on one character, restricted to the ASCII
letters (the only case mapping the program's data exercises). -/
def goLowerChar (c : Char) : Char :=
  match c with
  | 'A' => 'a' | 'B' => 'b' | 'C' => 'c' | 'D' => 'd' | 'E' => 'e'
  | 'F' => 'f' | 'G' => 'g' | 'H' => 'h' | 'I' => 'i' | 'J' => 'j'
  | 'K' => 'k' | 'L' => 'l' | 'M' => 'm' | 'N' => 'n' | 'O' => 'o'
  | 'P' => 'p' | 'Q' => 'q' | 'R' => 'r' | 'S' => 's' | 'T' => 't'
  | 'U' => 'u' | 'V' => 'v' | 'W' => 'w' | 'X' => 'x' | 'Y' => 'y'
  | 'Z' => 'z' | c => c

/-- Model of Go `strings.ToLower`. -/
def goLower (s : GoStr) : GoStr := s.map goLowerChar

/-- Scanning loop of Go `path/filepath.Ext`: walk the path from its end
(`rev` is the not-yet-scanned part, reversed; `acc` the scanned suffix in
original order); stop with `""` at a path separator, and at a dot return
the suffix starting at that dot. -/
def goExtLoop : List Char → List Char → List Char
  | [], _ => []
  | c :: rest, acc =>
    if c = '/' then []
    else if c = '.' then c :: acc
    else goExtLoop rest (c :: acc)

/-- Model of Go `path/filepath.Ext`: the suffix beginning at the final dot
in the final slash-separated element of the path; empty if there is no
dot. -/
def goExt (p : GoStr) : GoStr := goExtLoop p.reverse []

/-- Model of Go `path/filepath.Base`: strip trailing slashes, then keep
what follows the last slash; `"."` for the empty path, `"/"` if the path
consists only of slashes. -/
def goBase (p : GoStr) : GoStr :=
  if p = [] then ['.']
  else
    let q := (p.reverse.dropWhile (· = '/')).reverse
    let r := (q.reverse.takeWhile (· ≠ '/')).reverse
    if r = [] then ['/'] else r

/-- Model of Go `path/filepath.Join` on two elements: empty elements are
dropped, the rest joined with a slash.  (Go additionally runs `Clean` on
the joined string; that normalization only re-spells the path and is not
modelled.) -/
def goJoin (a b : GoStr) : GoStr :=
  if a = [] then b else if b = [] then a else a ++ '/' :: b

/-- `getFileExtension` from `main.go`: `filepath.Ext` of the filename,
with the leading dot removed and the rest lower-cased; empty when there is
no extension. -/
def getFileExtension (filename : GoStr) : GoStr :=
  match goExt filename with
  | [] => []
  | _ :: t => goLower t

/-- The supported-format set of `main.go` (`isFormatSupported`). -/
def supportedFormats : List GoStr :=
  [gs "flac", gs "mp3", gs "mp4", gs "mpeg", gs "mpga",
   gs "m4a", gs "ogg", gs "wav", gs "webm"]

/-- `isFormatSupported` from `main.go`: membership of the lower-cased
extension in the fixed supported set. -/
def isFormatSupported (ext : GoStr) : Bool :=
  supportedFormats.contains (goLower ext)

/-- The format gate as composed at the `main.go` call site:
`isFormatSupported(getFileExtension(filename))`. -/
def nativelySupported (filename : GoStr) : Bool :=
  isFormatSupported (getFileExtension filename)

namespace P3

/-- The supported-format set of the variant orchestrator (it additionally
lists `oga`). -/
def supportedFormats : List GoStr :=
  [gs "flac", gs "m4a", gs "mp3", gs "mp4", gs "mpeg",
   gs "mpga", gs "oga", gs "ogg", gs "wav", gs "webm"]

/-- `isFormatSupported` from the variant orchestrator: it takes the whole
filename and looks its extracted extension up in the set. -/
def isFormatSupported (filename : GoStr) : Bool :=
  supportedFormats.contains (getFileExtension filename)

end P3

/-- Invocation parameters (`Args` in `main.go`); the `float64` sampling
temperature takes no part in any modelled logic and is omitted. -/
structure Args where
  File : GoStr
  Model : GoStr
  Language : GoStr
  Prompt : GoStr
  Format : GoStr
  OutputDir : GoStr
  OutputExt : GoStr
  APIKey : GoStr
deriving DecidableEq, Repr

/-- `determineOutputFileName` from `main.go`: strip the extension from the
base name of the original (pre-conversion) input, append the resolved
output extension, and join with the output directory. -/
def determineOutputFileName (args : Args) (originalFile : GoStr) : GoStr :=
  let base := goBase originalFile
  let ext := goExt base
  let nameWithoutExt := base.take (base.length - ext.length)
  let outputExt :=
    if args.OutputExt ≠ [] then
      if args.OutputExt.head? = some '.' then args.OutputExt
      else '.' :: args.OutputExt
    else
      if args.Format = gs "srt" then gs ".srt"
      else if args.Format = gs "vtt" then gs ".vtt"
      else if args.Format = gs "verbose_json" then gs ".json"
      else gs ".txt"
  goJoin args.OutputDir (nameWithoutExt ++ outputExt)

namespace P3

/-- `determineOutputFileName` from the variant orchestrator: same
extension logic, but it takes no directory join and reads the (never
reassigned) input path from the arguments. -/
def determineOutputFileName (args : Args) : GoStr :=
  let base := goBase args.File
  let ext := goExt base
  let nameWithoutExt := base.take (base.length - ext.length)
  let outputExt :=
    if args.OutputExt ≠ [] then
      if args.OutputExt.head? = some '.' then args.OutputExt
      else '.' :: args.OutputExt
    else
      if args.Format = gs "srt" then gs ".srt"
      else if args.Format = gs "vtt" then gs ".vtt"
      else if args.Format = gs "verbose_json" then gs ".json"
      else gs ".txt"
  nameWithoutExt ++ outputExt

end P3

/-- Spec-side definition (following the specification's words): the
override extension "normalized to always begin with a single leading dot:
prepend one if the caller omitted it; do not duplicate if already
present". -/
def specNormalizeOverride (o : GoStr) : GoStr :=
  if o.head? = some '.' then o else '.' :: o

/-- Spec-side definition: the fixed mapping from the requested output
format token to a canonical extension, with plain text as the fallback for
any unrecognized or unset token. -/
def specFormatExtension (format : GoStr) : GoStr :=
  if format = gs "srt" then gs ".srt"
  else if format = gs "vtt" then gs ".vtt"
  else if format = gs "verbose_json" then gs ".json"
  else gs ".txt"

/-- Spec-side definition: the resolved output extension — the normalized
explicit override when one is given, else the format-derived extension. -/
def specResolvedExtension (overrideExt format : GoStr) : GoStr :=
  if overrideExt ≠ [] then specNormalizeOverride overrideExt
  else specFormatExtension format

/-- Spec-side definition: a name "with its extension stripped" — remove
the extension suffix from the end of the string. -/
def specStripExtension (b : GoStr) : GoStr :=
  (b.reverse.drop (goExt b).length).reverse

/-! ### `config.go`: the credential store and resolver -/

/-- The persisted configuration record (`Config` in `config.go`): a single
secret string, serialized under the JSON key `openai_api_key`. -/
structure Config where
  OpenAIAPIKey : GoStr
deriving DecidableEq, Repr

/-- Error taxonomy of the embedded `config.go` functions (the Go code
returns wrapped error strings; only the case matters here). -/
inductive GoErr where
  /-- "API key cannot be empty" -/
  | emptySecret
  /-- "failed to read API key" (the fallback line read failed) -/
  | readFailed
  /-- "failed to parse config file" -/
  | corruptConfig
  /-- a wrapped error from a lower layer ("failed to load config: ...") -/
  | loadFailed
deriving DecidableEq, Repr

deriving instance DecidableEq for Except

/-- Lower-case hexadecimal digit, as used by Go's JSON encoder. -/
def hexDigit (n : Nat) : Char :=
  if n = 0 then '0' else if n = 1 then '1' else if n = 2 then '2'
  else if n = 3 then '3' else if n = 4 then '4' else if n = 5 then '5'
  else if n = 6 then '6' else if n = 7 then '7' else if n = 8 then '8'
  else if n = 9 then '9' else if n = 10 then 'a' else if n = 11 then 'b'
  else if n = 12 then 'c' else if n = 13 then 'd' else if n = 14 then 'e'
  else 'f'

/-- Hexadecimal value of a digit character (both cases), as accepted by
Go's JSON decoder; `none` on a non-digit. -/
def hexVal (c : Char) : Option Nat :=
  if c = '0' then some 0 else if c = '1' then some 1
  else if c = '2' then some 2 else if c = '3' then some 3
  else if c = '4' then some 4 else if c = '5' then some 5
  else if c = '6' then some 6 else if c = '7' then some 7
  else if c = '8' then some 8 else if c = '9' then some 9
  else if c = 'a' ∨ c = 'A' then some 10 else if c = 'b' ∨ c = 'B' then some 11
  else if c = 'c' ∨ c = 'C' then some 12 else if c = 'd' ∨ c = 'D' then some 13
  else if c = 'e' ∨ c = 'E' then some 14 else if c = 'f' ∨ c = 'F' then some 15
  else none

/-- Model of Go `encoding/json`'s string escaping for one character
(HTML-escaping enabled, as `json.Marshal` defaults): quote, backslash and
the HTML-significant characters are escaped, control characters get
`\n`/`\r`/`\t` or a `\u00XX` sequence, the Unicode line separators get
`U+2028`/`U+2029`, everything else passes through.  (Invalid UTF-8 cannot
arise in the model: `Char` is a Unicode scalar.) -/
def escapeChar (c : Char) : GoStr :=
  if c = '"' then ['\\', '"']
  else if c = '\\' then ['\\', '\\']
  else if c = '\n' then ['\\', 'n']
  else if c = '\r' then ['\\', 'r']
  else if c = '\t' then ['\\', 't']
  else if c = '<' then ['\\', 'u', '0', '0', '3', 'c']
  else if c = '>' then ['\\', 'u', '0', '0', '3', 'e']
  else if c = '&' then ['\\', 'u', '0', '0', '2', '6']
  else if c.toNat < 0x20 then
    ['\\', 'u', '0', '0', hexDigit (c.toNat / 16), hexDigit (c.toNat % 16)]
  else if c = '\u2028' then ['\\', 'u', '2', '0', '2', '8']
  else if c = '\u2029' then ['\\', 'u', '2', '0', '2', '9']
  else [c]

/-- Escapes a whole string for embedding in a JSON document. -/
def escapeString (s : GoStr) : GoStr := s.flatMap escapeChar

/-- `json.MarshalIndent(config, "", "  ")` applied to the one-field
`Config` record: the exact document Go produces. -/
def goMarshalConfig (c : Config) : GoStr :=
  gs "\x7b\n  \"openai_api_key\": \"" ++ escapeString c.OpenAIAPIKey
    ++ gs "\"\n\x7d"

/-- JSON whitespace. -/
def jsonWs (c : Char) : Bool :=
  c = ' ' ∨ c = '\t' ∨ c = '\n' ∨ c = '\r'

/-- Decodes the body of a JSON string (the part after the opening quote)
up to its closing quote, returning the decoded string and the remaining
input.  Handles every escape Go's decoder accepts except surrogate pairs
(which the encoder of this record never emits). -/
def parseStringBody : GoStr → Option (GoStr × GoStr)
  | [] => none
  | c :: rest =>
    if c = '"' then some ([], rest)
    else if c = '\\' then
      match rest with
      | [] => none
      | e :: rest2 =>
        if e = 'u' then
          match rest2 with
          | a :: b :: c2 :: d :: rest3 =>
            match hexVal a, hexVal b, hexVal c2, hexVal d with
            | some va, some vb, some vc, some vd =>
              let n := ((va * 16 + vb) * 16 + vc) * 16 + vd
              if n < 0xd800 then
                match parseStringBody rest3 with
                | some (s, r) => some (Char.ofNat n :: s, r)
                | none => none
              else none
            | _, _, _, _ => none
          | _ => none
        else
          let decoded : Option Char :=
            if e = '"' then some '"' else if e = '\\' then some '\\'
            else if e = '/' then some '/' else if e = 'b' then some '\x08'
            else if e = 'f' then some '\x0C' else if e = 'n' then some '\n'
            else if e = 'r' then some '\r' else if e = 't' then some '\t'
            else none
          match decoded with
          | some c2 =>
            match parseStringBody rest2 with
            | some (s, r) => some (c2 :: s, r)
            | none => none
          | none => none
    else
      match parseStringBody rest with
      | some (s, r) => some (c :: s, r)
      | none => none

/-- Model of `json.Unmarshal` into the `Config` record, restricted to the
single-field-object document shape that `goMarshalConfig` produces
(arbitrary JSON whitespace, one key-value pair of strings; an object with
a different key yields the zero record, as Go ignores unknown fields). -/
def goUnmarshalConfig (data : GoStr) : Option Config :=
  let l := data.dropWhile jsonWs
  match l with
  | '\x7b' :: l =>
    match l.dropWhile jsonWs with
    | '"' :: l =>
      match parseStringBody l with
      | some (key, l) =>
        match l.dropWhile jsonWs with
        | ':' :: l =>
          match l.dropWhile jsonWs with
          | '"' :: l =>
            match parseStringBody l with
            | some (val, l) =>
              match l.dropWhile jsonWs with
              | '\x7d' :: l =>
                if l.dropWhile jsonWs = [] then
                  if key = gs "openai_api_key" then some ⟨val⟩ else some ⟨[]⟩
                else none
              | _ => none
            | none => none
          | _ => none
        | _ => none
      | none => none
    | _ => none
  | _ => none

/-- The file-system state the credential store sees: the contents of the
config file at its well-known path (`none` = the file does not exist). -/
abbrev ConfigFS := Option GoStr

/-- `loadConfig` from `config.go`: a missing file yields the empty record
(not an error); otherwise the contents are parsed, failing on malformed
content. -/
def loadConfig (fs : ConfigFS) : Except GoErr Config :=
  match fs with
  | none => .ok ⟨[]⟩
  | some data =>
    match goUnmarshalConfig data with
    | some c => .ok c
    | none => .error .corruptConfig

/-- The effect of a config-file write: the file-system contents after it,
and the permission passed to `os.WriteFile`. -/
structure WriteEffect where
  fsAfter : ConfigFS
  perm : Nat
deriving DecidableEq, Repr

/-- `saveConfig` from `config.go`, as its file-system effect: the record
is marshalled with `json.MarshalIndent` and written over the config file
with permission `0600`.  (The I/O-failure case is handled at the caller
via the `saveOk` world flag.) -/
def saveConfig (c : Config) (_fs : ConfigFS) : WriteEffect :=
  ⟨some (goMarshalConfig c), 0o600⟩

/-- `getConfigDir` from `config.go`, as an effect description: the
directory path joined under the platform base config directory, and the
permission passed to `os.MkdirAll`. -/
structure DirEffect where
  path : GoStr
  mkdirPerm : Nat
deriving DecidableEq, Repr

/-- `getConfigDir`: joins the application namespace segment onto the
platform base directory and creates it (with parents) using `0755`. -/
def getConfigDir (userConfigDir : GoStr) : DirEffect :=
  ⟨goJoin userConfigDir (gs "pindar"), 0o755⟩

/-- Model of Go `unicode.IsSpace` on the Latin-1 range (the whitespace
`strings.TrimSpace` strips). -/
def goIsSpace (c : Char) : Bool :=
  c = ' ' ∨ c = '\t' ∨ c = '\n' ∨ c = '\x0B' ∨ c = '\x0C' ∨ c = '\r'
    ∨ c = '\u0085' ∨ c = '\u00A0'

/-- Model of Go `strings.TrimSpace`: drop whitespace from both ends. -/
def goTrimSpace (s : GoStr) : GoStr :=
  ((s.dropWhile goIsSpace).reverse.dropWhile goIsSpace).reverse

/-- `promptForAPIKey` from `config.go`.  `masked` is the outcome of the
terminal-masked read (`term.ReadPassword`), `line` the outcome of the
plain buffered line read used as fallback (the line includes its trailing
newline, as `ReadString('\n')` returns it).  On a successful masked read
the trimmed secret is returned, with an empty-secret error if it is empty;
when the masked read is unavailable the fallback's line is trimmed and
returned as-is. -/
def promptForAPIKey (masked : Except Unit GoStr) (line : Except Unit GoStr) :
    Except GoErr GoStr :=
  match masked with
  | .error _ =>
    match line with
    | .ok apiKey => .ok (goTrimSpace apiKey)
    | .error _ => .error .readFailed
  | .ok bytePassword =>
    let apiKey := goTrimSpace bytePassword
    if apiKey = [] then .error .emptySecret else .ok apiKey

/-- The external outcomes credential resolution can observe. -/
structure ResolveWorld where
  /-- `os.Getenv("OPENAI_API_KEY")` (empty when unset). -/
  env : GoStr
  /-- contents of the config file. -/
  fs : ConfigFS
  /-- outcome of the terminal-masked read. -/
  masked : Except Unit GoStr
  /-- outcome of the fallback line read. -/
  line : Except Unit GoStr
  /-- whether the `saveConfig` write succeeds. -/
  saveOk : Bool

/-- Which effects a `getAPIKey` run performed. -/
structure KeyTrace where
  /-- the interactive prompt was reached. -/
  prompted : Bool
  /-- a `saveConfig` write was attempted. -/
  saveAttempted : Bool
  /-- the config-file contents after the run. -/
  fsAfter : ConfigFS
deriving DecidableEq, Repr

/-- `getAPIKey` from `config.go`: resolve the secret by the fixed
precedence CLI argument → environment variable → config file → interactive
prompt; a secret obtained from the prompt is saved to the config file, and
a failing save only degrades to a warning. -/
def getAPIKey (cliAPIKey : GoStr) (w : ResolveWorld) :
    Except GoErr GoStr × KeyTrace :=
  if cliAPIKey ≠ [] then (.ok cliAPIKey, ⟨false, false, w.fs⟩)
  else if w.env ≠ [] then (.ok w.env, ⟨false, false, w.fs⟩)
  else
    match loadConfig w.fs with
    | .error _ => (.error .loadFailed, ⟨false, false, w.fs⟩)
    | .ok config =>
      if config.OpenAIAPIKey ≠ [] then
        (.ok config.OpenAIAPIKey, ⟨false, false, w.fs⟩)
      else
        match promptForAPIKey w.masked w.line with
        | .error e => (.error e, ⟨true, false, w.fs⟩)
        | .ok apiKey =>
          let fsAfter :=
            if w.saveOk then (saveConfig ⟨apiKey⟩ w.fs).fsAfter else w.fs
          (.ok apiKey, ⟨true, true, fsAfter⟩)

/-! ### The orchestrator pipelines -/

/-- Every external outcome a run of the orchestrator can observe.  The
fields not consulted by a given pipeline variant (`main.go` never stats
the file or creates the output directory) are simply unread there. -/
structure World where
  args : Args
  /-- outcomes seen by credential resolution. -/
  resolve : ResolveWorld
  /-- outcome of `convertToMP4`: the converted file's path, or the error
  (ffmpeg missing / conversion failed). -/
  convert : Except Unit GoStr
  /-- whether `os.Open` succeeds on a given path. -/
  openOk : GoStr → Bool
  /-- outcome of `file.Stat()`: the file size in bytes, by path. -/
  stat : GoStr → Except Unit Nat
  /-- outcome of the transcription network call: the transcribed text. -/
  api : Except Unit GoStr
  /-- whether `os.MkdirAll` on the output directory succeeds. -/
  mkdirOk : Bool
  /-- whether `os.WriteFile` on the output file succeeds. -/
  writeOk : Bool

/-- Observable outcome of one orchestrator run. -/
structure RunResult where
  /-- process exit code: `0` on the success path, `1` via `os.Exit(1)`. -/
  exit : Nat
  /-- the transcription network call was performed. -/
  networkAttempted : Bool
  /-- the conversion adapter was invoked. -/
  conversionAttempted : Bool
  /-- the output file written: its path and contents (`none` if no file
  was written). -/
  wroteFile : Option (GoStr × GoStr)
  /-- text printed to standard output as the transcription result. -/
  stdout : Option GoStr
  /-- the `os.MkdirAll` call on the output directory: path and permission
  (`none` if never called). -/
  mkdirCalled : Option (GoStr × Nat)
deriving DecidableEq, Repr

/-- A run that terminated with exit code 1 before the network call. -/
def failedRun (convAttempted : Bool) : RunResult :=
  ⟨1, false, convAttempted, none, none, none⟩

namespace PindarM

/-- Tail of the `main.go` pipeline after the format gate: open the file,
call the transcription service (there is no size check in this variant),
then emit.  `originalFile` is the pre-conversion input path; `audioFile`
the possibly converted one. -/
def runRest (w : World) (originalFile audioFile : GoStr)
    (convAttempted : Bool) : RunResult :=
  if ¬ w.openOk audioFile then failedRun convAttempted
  else
    match w.api with
    | .error _ => ⟨1, true, convAttempted, none, none, none⟩
    | .ok text =>
      -- the format switch assigns `response.Text` in every branch, so the
      -- emitted text is the same for all format tokens
      let outputFile :=
        if w.args.OutputDir ≠ [] ∨ w.args.OutputExt ≠ [] then
          determineOutputFileName w.args originalFile
        else []
      if outputFile ≠ [] then
        if w.writeOk then
          ⟨0, true, convAttempted, some (outputFile, text), none, none⟩
        else ⟨1, true, convAttempted, none, none, none⟩
      else ⟨0, true, convAttempted, none, some text, none⟩

/-- The `main.go` orchestrator: resolve the credential, convert when the
format gate rejects the extension, then transcribe and emit.  Note that
`main.go` performs no file-size check and never creates the output
directory. -/
def mainRun (w : World) : RunResult :=
  match (getAPIKey w.args.APIKey w.resolve).1 with
  | .error _ => failedRun false
  | .ok _ =>
    let originalFile := w.args.File
    if ¬ nativelySupported w.args.File then
      match w.convert with
      | .error _ => failedRun true
      | .ok converted => runRest w originalFile converted true
    else runRest w originalFile originalFile false

end PindarM

namespace P3

/-- Tail of the variant pipeline: open the file, stat it, reject files
over 25 MiB before the network call, transcribe, then emit (creating the
output directory when one was requested). -/
def runRest (w : World) (audioFilePath : GoStr) (convAttempted : Bool) :
    RunResult :=
  if ¬ w.openOk audioFilePath then failedRun convAttempted
  else
    match w.stat audioFilePath with
    | .error _ => failedRun convAttempted
    | .ok size =>
      if size > 25 * 1024 * 1024 then failedRun convAttempted
      else
        match w.api with
        | .error _ => ⟨1, true, convAttempted, none, none, none⟩
        | .ok text =>
          let outputFileName := determineOutputFileName w.args
          if w.args.OutputDir ≠ [] then
            let mk := some (w.args.OutputDir, 0o755)
            if ¬ w.mkdirOk then ⟨1, true, convAttempted, none, none, mk⟩
            else
              let outputPath := goJoin w.args.OutputDir outputFileName
              if w.writeOk then
                ⟨0, true, convAttempted, some (outputPath, text), none, mk⟩
              else ⟨1, true, convAttempted, none, none, mk⟩
          else ⟨0, true, convAttempted, none, some text, none⟩

/-- The variant orchestrator (`src/unnamed/part_003`): credential
resolution, format gate and conversion, open, 25 MiB size check, network
call, then emission with recursive output-directory creation. -/
def mainRun (w : World) : RunResult :=
  match (getAPIKey w.args.APIKey w.resolve).1 with
  | .error _ => failedRun false
  | .ok _ =>
    if ¬ isFormatSupported w.args.File then
      match w.convert with
      | .error _ => failedRun true
      | .ok converted => runRest w converted true
    else runRest w w.args.File false

end P3

/-! ### Helper lemmas about trimming -/

theorem dropWhile_head?_false {α} {p : α → Bool} {l : List α} {c : α}
    (h : (l.dropWhile p).head? = some c) : p c = false := by
  have hh := List.head?_dropWhile_not p l
  rw [h] at hh
  exact hh

theorem getLast?_dropWhile_ne_nil {α} {p : α → Bool} :
    ∀ {l : List α}, l.dropWhile p ≠ [] →
      (l.dropWhile p).getLast? = l.getLast? := by
  intro l
  induction l with
  | nil => intro h; simp [List.dropWhile] at h
  | cons a t ih =>
    intro h
    rw [List.dropWhile_cons]
    rw [List.dropWhile_cons] at h
    by_cases hp : p a
    · simp only [hp, if_true] at h ⊢
      cases t with
      | nil => simp [List.dropWhile] at h
      | cons b t2 =>
        rw [List.getLast?_cons_cons]
        exact ih h
    · simp [hp]

/-- A list whose head (if any) fails `p` is unchanged by `dropWhile p`. -/
theorem dropWhile_eq_self_of_head {α} {p : α → Bool} {l : List α}
    (h : ∀ c, l.head? = some c → p c = false) : l.dropWhile p = l := by
  cases l with
  | nil => rfl
  | cons a t =>
    have ha : p a = false := h a (by simp)
    rw [List.dropWhile_cons]
    simp [ha]

/-- `goTrimSpace` is idempotent: a trimmed string trims to itself. -/
theorem goTrimSpace_idem (s : GoStr) :
    goTrimSpace (goTrimSpace s) = goTrimSpace s := by
  unfold goTrimSpace
  set p := goIsSpace with hp
  set u := s.dropWhile p with hu
  set v := u.reverse.dropWhile p with hv
  have hdw : v.reverse.dropWhile p = v.reverse := by
    apply dropWhile_eq_self_of_head
    intro c0 hc0
    rw [List.head?_reverse] at hc0
    have hvne : v ≠ [] := by
      intro hvn
      rw [hvn] at hc0
      simp at hc0
    have hlast : v.getLast? = u.head? := by
      rw [hv, getLast?_dropWhile_ne_nil (by rw [← hv]; exact hvne)]
      simp
    rw [hlast] at hc0
    rw [hu] at hc0
    exact dropWhile_head?_false hc0
  rw [hdw]
  have h2 : v.reverse.reverse.dropWhile p = v := by
    rw [List.reverse_reverse, hv]
    exact List.dropWhile_idempotent _ _
  rw [h2]

/-! ### Claim C1 -/

/-- The all-success world for a natively supported 26 MiB input file: the
credential comes from the CLI, the file opens, `Stat` reports
`26*1024*1024` bytes, and the service would answer. -/
def c1World : World :=
  ⟨⟨gs "big.mp3", gs "gpt-4o-transcribe", [], [], gs "text", [], [], gs "cli-key"⟩,
   ⟨[], none, .ok (gs "k"), .ok (gs "k"), true⟩,
   .ok (gs "/tmp/big_converted.mp4"), fun _ => true,
   fun _ => .ok (26 * 1024 * 1024), .ok (gs "hi"), true, true⟩

/-- C1: the claim says a run whose candidate audio file exceeds 25 MiB
fails with a non-zero exit before any transcription network call.  The
`main.go` orchestrator performs no size check at all: on a 26 MiB file it
attempts the network call and completes with exit 0.  The earlier variant
orchestrator honors the claim on the same world: it stops with exit 1
before the network call. -/
theorem c1_main_lacks_size_check :
    (PindarM.mainRun c1World).networkAttempted = true ∧
    (PindarM.mainRun c1World).exit = 0 ∧
    (P3.mainRun c1World).networkAttempted = false ∧
    (P3.mainRun c1World).exit = 1 := by
  decide

/-! ### Claim C2 -/

/-- C2: credential resolution returns the first non-empty source in the
fixed order CLI value, environment variable, persisted secret, interactive
prompt; a non-empty CLI value is returned with no prompt, and each earlier
empty source falls through to the next. -/
theorem c2_getAPIKey_precedence (cli : GoStr) (w : ResolveWorld) :
    (cli ≠ [] → getAPIKey cli w = (.ok cli, ⟨false, false, w.fs⟩)) ∧
    (cli = [] → w.env ≠ [] →
      getAPIKey cli w = (.ok w.env, ⟨false, false, w.fs⟩)) ∧
    (∀ cfg, cli = [] → w.env = [] → loadConfig w.fs = .ok cfg →
      cfg.OpenAIAPIKey ≠ [] →
      getAPIKey cli w = (.ok cfg.OpenAIAPIKey, ⟨false, false, w.fs⟩)) ∧
    (∀ cfg k, cli = [] → w.env = [] → loadConfig w.fs = .ok cfg →
      cfg.OpenAIAPIKey = [] → promptForAPIKey w.masked w.line = .ok k →
      (getAPIKey cli w).1 = .ok k ∧ (getAPIKey cli w).2.prompted = true) := by
  refine ⟨?_, ?_, ?_, ?_⟩
  · intro h
    simp [getAPIKey, h]
  · intro h1 h2
    simp [getAPIKey, h1, h2]
  · intro cfg h1 h2 h3 h4
    simp [getAPIKey, h1, h2, h3, h4]
  · intro cfg k h1 h2 h3 h4 h5
    simp [getAPIKey, h1, h2, h3, h4, h5]

/-- C2 witness: the four precedence paths exercised at concrete inputs. -/
theorem c2_getAPIKey_precedence_witness :
    getAPIKey (gs "c") ⟨gs "e", none, .ok (gs "m"), .ok (gs "l"), true⟩
      = (.ok (gs "c"), ⟨false, false, none⟩) ∧
    getAPIKey [] ⟨gs "e", none, .ok (gs "m"), .ok (gs "l"), true⟩
      = (.ok (gs "e"), ⟨false, false, none⟩) ∧
    getAPIKey []
        ⟨[], some (goMarshalConfig ⟨gs "s"⟩), .ok (gs "m"), .ok (gs "l"), true⟩
      = (.ok (gs "s"), ⟨false, false, some (goMarshalConfig ⟨gs "s"⟩)⟩) ∧
    (getAPIKey [] ⟨[], none, .ok (gs "m"), .ok (gs "l"), true⟩).1
      = .ok (gs "m") := by
  refine ⟨?_, ?_, ?_, ?_⟩
  · exact (c2_getAPIKey_precedence (gs "c") _).1 (by decide)
  · exact (c2_getAPIKey_precedence [] _).2.1 rfl (by decide)
  · exact (c2_getAPIKey_precedence [] _).2.2.1 ⟨gs "s"⟩ rfl rfl (by decide)
      (by decide)
  · exact ((c2_getAPIKey_precedence [] _).2.2.2 ⟨[]⟩ (gs "m") rfl rfl
      (by decide) rfl (by decide)).1

/-! ### Claim C5 -/

/-- C5 counterexample: the claim says the prompt fails with an
empty-secret error whenever the trimmed result is empty, for both the
masked read and the unmasked fallback; but when the masked read is
unavailable and the fallback line is all whitespace, `promptForAPIKey`
returns the empty string without error. -/
theorem c5_prompt_empty_fallback_ok :
    promptForAPIKey (.error ()) (.ok (gs "  \n")) = .ok [] := by
  decide

/-- C5 (amended): every returned secret is the whitespace-trimmed read (in
particular it is a fixed point of trimming); the empty-secret check is
applied on the masked-read path only, while the unmasked fallback returns
the trimmed line even when it is empty. -/
theorem c5_prompt_trims_and_checks (masked line : Except Unit GoStr) :
    (∀ s, masked = .ok s →
      promptForAPIKey masked line =
        (if goTrimSpace s = [] then .error .emptySecret
         else .ok (goTrimSpace s))) ∧
    (∀ u l, masked = .error u → line = .ok l →
      promptForAPIKey masked line = .ok (goTrimSpace l)) ∧
    (∀ r, promptForAPIKey masked line = .ok r → goTrimSpace r = r) := by
  refine ⟨?_, ?_, ?_⟩
  · intro s hs
    subst hs
    simp [promptForAPIKey]
  · intro u l hm hl
    subst hm; subst hl
    simp [promptForAPIKey]
  · intro r hr
    unfold promptForAPIKey at hr
    cases masked with
    | error u =>
      cases line with
      | error v => simp at hr
      | ok l =>
        simp at hr
        rw [← hr]
        exact goTrimSpace_idem l
    | ok s =>
      by_cases he : goTrimSpace s = []
      · simp [he] at hr
      · simp [he] at hr
        rw [← hr]
        exact goTrimSpace_idem s

/-- C5 witness: the amended behavior at concrete inputs — a successful
masked read is trimmed, an all-whitespace masked read errors, and a
fallback result is a fixed point of trimming. -/
theorem c5_prompt_trims_and_checks_witness :
    promptForAPIKey (.ok (gs " sk-1 \n")) (.error ()) = .ok (gs "sk-1") ∧
    promptForAPIKey (.ok (gs " \t\n")) (.error ()) = .error .emptySecret ∧
    promptForAPIKey (.error ()) (.ok (gs " sk-2\n")) = .ok (gs "sk-2") ∧
    goTrimSpace (gs "sk-2") = gs "sk-2" := by
  refine ⟨?_, ?_, ?_, ?_⟩
  · have h := (c5_prompt_trims_and_checks (.ok (gs " sk-1 \n")) (.error ())).1
      (gs " sk-1 \n") rfl
    rw [h]
    decide
  · have h := (c5_prompt_trims_and_checks (.ok (gs " \t\n")) (.error ())).1
      (gs " \t\n") rfl
    rw [h]
    decide
  · have h := (c5_prompt_trims_and_checks (.error ()) (.ok (gs " sk-2\n"))).2.1
      () (gs " sk-2\n") rfl rfl
    rw [h]
    decide
  · exact (c5_prompt_trims_and_checks (.error ()) (.ok (gs " sk-2\n"))).2.2
      (gs "sk-2") (by decide)

/-! ### Claim C6 -/

/-- C6: a save to the credential store is attempted only when the secret
came from the interactive prompt; resolution via the CLI argument, the
environment variable or the persisted record leaves the store untouched;
and after a successful prompt the resolved secret is returned whether or
not the save succeeds. -/
theorem c6_persist_only_after_prompt (cli : GoStr) (w : ResolveWorld) :
    ((getAPIKey cli w).2.saveAttempted = true →
      cli = [] ∧ w.env = [] ∧
      (∃ cfg, loadConfig w.fs = .ok cfg ∧ cfg.OpenAIAPIKey = []) ∧
      (∃ k, promptForAPIKey w.masked w.line = .ok k)) ∧
    ((getAPIKey cli w).2.saveAttempted = false →
      (getAPIKey cli w).2.fsAfter = w.fs) ∧
    (∀ cfg k, cli = [] → w.env = [] → loadConfig w.fs = .ok cfg →
      cfg.OpenAIAPIKey = [] → promptForAPIKey w.masked w.line = .ok k →
      (getAPIKey cli w).1 = .ok k ∧
      (getAPIKey cli w).2.saveAttempted = true) := by
  refine ⟨?_, ?_, ?_⟩
  · intro hsave
    by_cases h1 : cli = []
    swap
    · simp [getAPIKey, h1] at hsave
    by_cases h2 : w.env = []
    swap
    · simp [getAPIKey, h1, h2] at hsave
    cases hL : loadConfig w.fs with
    | error e => simp [getAPIKey, h1, h2, hL] at hsave
    | ok cfg =>
      by_cases h3 : cfg.OpenAIAPIKey = []
      swap
      · simp [getAPIKey, h1, h2, hL, h3] at hsave
      cases hP : promptForAPIKey w.masked w.line with
      | error e => simp [getAPIKey, h1, h2, hL, h3, hP] at hsave
      | ok k => exact ⟨h1, h2, ⟨cfg, rfl, h3⟩, ⟨k, rfl⟩⟩
  · intro hsave
    by_cases h1 : cli = []
    swap
    · simp [getAPIKey, h1]
    by_cases h2 : w.env = []
    swap
    · simp [getAPIKey, h1, h2]
    cases hL : loadConfig w.fs with
    | error e => simp [getAPIKey, h1, h2, hL]
    | ok cfg =>
      by_cases h3 : cfg.OpenAIAPIKey = []
      swap
      · simp [getAPIKey, h1, h2, hL, h3]
      cases hP : promptForAPIKey w.masked w.line with
      | error e => simp [getAPIKey, h1, h2, hL, h3, hP]
      | ok k => simp [getAPIKey, h1, h2, hL, h3, hP] at hsave
  · intro cfg k h1 h2 hL h3 hP
    simp [getAPIKey, h1, h2, hL, h3, hP]

/-- C6 witness: with every earlier source empty, a prompted secret is
returned and a save is attempted even when the write fails (the
file-system state is then unchanged), while a CLI-resolved run attempts no
save. -/
theorem c6_persist_only_after_prompt_witness :
    (getAPIKey [] ⟨[], none, .ok (gs "m"), .ok (gs "l"), false⟩).1
        = .ok (gs "m") ∧
    (getAPIKey [] ⟨[], none, .ok (gs "m"), .ok (gs "l"), false⟩).2.saveAttempted
        = true ∧
    (getAPIKey (gs "c") ⟨[], none, .ok (gs "m"), .ok (gs "l"), true⟩).2.fsAfter
        = none := by
  refine ⟨?_, ?_, ?_⟩
  · exact ((c6_persist_only_after_prompt []
      ⟨[], none, .ok (gs "m"), .ok (gs "l"), false⟩).2.2 ⟨[]⟩ (gs "m")
      rfl rfl (by decide) rfl (by decide)).1
  · exact ((c6_persist_only_after_prompt []
      ⟨[], none, .ok (gs "m"), .ok (gs "l"), false⟩).2.2 ⟨[]⟩ (gs "m")
      rfl rfl (by decide) rfl (by decide)).2
  · exact (c6_persist_only_after_prompt (gs "c")
      ⟨[], none, .ok (gs "m"), .ok (gs "l"), true⟩).2.1 (by decide)

/-! ### Claim C7 -/

/-- C7 counterexample: the claim says the containing directory is created
with owner-only traversal permissions, but `getConfigDir` creates it with
permission `0755`, whose group and other bits (`0o55`) grant read and
traversal to group and other. -/
theorem c7_config_dir_not_owner_only :
    (getConfigDir (gs "/home/u/.config")).mkdirPerm = 0o755 ∧
    (getConfigDir (gs "/home/u/.config")).mkdirPerm % 64 ≠ 0 := by
  decide

/-- C7 (amended): the persisted configuration file is written with
owner-only read/write permission (`0600`: no group or other bits), while
its containing directory (the application segment joined under the
platform base directory) is created, with any missing parents, with
permission `0755` — owner full access, group and other read and traverse
(not owner-only). -/
theorem c7_permissions (c : Config) (fs : ConfigFS) (base : GoStr) :
    (saveConfig c fs).perm = 0o600 ∧
    (saveConfig c fs).perm % 64 = 0 ∧
    (getConfigDir base).mkdirPerm = 0o755 ∧
    (getConfigDir base).path = goJoin base (gs "pindar") := by
  refine ⟨rfl, ?_, rfl, rfl⟩
  show (saveConfig c fs).perm % 64 = 0
  simp [saveConfig]

/-! ### Claim C3 -/

/-- Loop invariant of the extension scan: its result is a suffix of the
scanned path (reversed prefix plus accumulated suffix). -/
theorem goExtLoop_suffix :
    ∀ (rev acc : List Char), goExtLoop rev acc <:+ rev.reverse ++ acc := by
  intro rev
  induction rev with
  | nil => intro acc; simp [goExtLoop]
  | cons c rest ih =>
    intro acc
    unfold goExtLoop
    by_cases h1 : c = '/'
    · simp [h1]
    · by_cases h2 : c = '.'
      · simp only [h1, h2, if_false, if_true, if_neg, if_pos]
        subst h2
        rw [List.reverse_cons, List.append_assoc, List.singleton_append]
        exact List.suffix_append _ _
      · simp only [h1, h2, if_false, if_neg]
        have := ih (c :: acc)
        rw [List.reverse_cons, List.append_assoc, List.singleton_append]
        exact this

/-- The extension `filepath.Ext` extracts is a suffix of the path. -/
theorem goExt_suffix (p : GoStr) : goExt p <:+ p := by
  have := goExtLoop_suffix p.reverse []
  rwa [List.reverse_reverse, List.append_nil] at this

/-- C3: the computed output file name is the base name of the original
input with its extension (a suffix of the base name) stripped, followed by
the resolved extension: the dot-normalized explicit override when one is
given — regardless of the format value — else `.srt`/`.vtt`/`.json` for
the `srt`/`vtt`/`verbose_json` formats and `.txt` for `text` or any other
token; `main.go` additionally joins the output directory around that
name.  The spec's concrete examples are instances. -/
theorem c3_output_file_name :
    (∀ (args : Args) (originalFile : GoStr),
      determineOutputFileName args originalFile =
        goJoin args.OutputDir
          (specStripExtension (goBase originalFile) ++
            specResolvedExtension args.OutputExt args.Format)) ∧
    (∀ p : GoStr, goExt p <:+ p) ∧
    (determineOutputFileName
        ⟨gs "/a/b/song.mp3", [], [], [], gs "srt", [], [], []⟩
        (gs "/a/b/song.mp3") = gs "song.srt") ∧
    (determineOutputFileName
        ⟨gs "/a/b/song.mp3", [], [], [], gs "vtt", [], [], []⟩
        (gs "/a/b/song.mp3") = gs "song.vtt") ∧
    (determineOutputFileName
        ⟨gs "/a/b/song.mp3", [], [], [], gs "verbose_json", [], [], []⟩
        (gs "/a/b/song.mp3") = gs "song.json") ∧
    (determineOutputFileName
        ⟨gs "/a/b/song.mp3", [], [], [], [], [], [], []⟩
        (gs "/a/b/song.mp3") = gs "song.txt") ∧
    (determineOutputFileName
        ⟨gs "/a/b/song.mp3", [], [], [], gs "srt", [], gs "transcript", []⟩
        (gs "/a/b/song.mp3") = gs "song.transcript") ∧
    (determineOutputFileName
        ⟨gs "/a/b/song.mp3", [], [], [], gs "srt", [], gs ".transcript", []⟩
        (gs "/a/b/song.mp3") = gs "song.transcript") := by
  refine ⟨?_, goExt_suffix, by decide, by decide, by decide, by decide,
    by decide, by decide⟩
  intro args originalFile
  simp only [determineOutputFileName, specStripExtension,
    specResolvedExtension, specNormalizeOverride, specFormatExtension]
  rw [List.drop_reverse, List.reverse_reverse]

/-! ### Claim C4 -/

/-- The resolved output extension is non-empty in every branch. -/
theorem resolvedExt_ne_nil (o f : GoStr) :
    (if o ≠ [] then (if o.head? = some '.' then o else '.' :: o)
     else if f = gs "srt" then gs ".srt"
     else if f = gs "vtt" then gs ".vtt"
     else if f = gs "verbose_json" then gs ".json"
     else gs ".txt") ≠ [] := by
  split_ifs with h1 h2 h3 h4 h5
  · exact h1
  · simp
  · decide
  · decide
  · decide
  · decide

/-- The computed output path is never the empty string: the resolved
extension always starts with a dot, so the name is non-empty, and joining
a directory can only lengthen it. -/
theorem determineOutputFileName_ne_nil (args : Args) (orig : GoStr) :
    determineOutputFileName args orig ≠ [] := by
  unfold determineOutputFileName
  have hname :
      (goBase orig).take ((goBase orig).length - (goExt (goBase orig)).length)
        ++ (if args.OutputExt ≠ [] then
              (if args.OutputExt.head? = some '.' then args.OutputExt
               else '.' :: args.OutputExt)
            else if args.Format = gs "srt" then gs ".srt"
            else if args.Format = gs "vtt" then gs ".vtt"
            else if args.Format = gs "verbose_json" then gs ".json"
            else gs ".txt") ≠ [] := by
    intro hc
    exact resolvedExt_ne_nil args.OutputExt args.Format
      (List.append_eq_nil.mp hc).2
  show goJoin _ _ ≠ []
  simp only [goJoin]
  intro hc
  split_ifs at hc with h1 h2
  all_goals first
    | exact h1 (List.append_eq_nil.mp hc).1
    | exact absurd (List.append_eq_nil.mp hc).2
        (by first | assumption | decide | simp)

/-- Branch analysis of the `main.go` pipeline tail: no directory is ever
created; on a successful exit a file is written exactly when an output
directory or an explicit extension was requested, and with neither the
text goes to stdout; any written file carries the computed output path and
the service's text. -/
theorem PindarM.runRest_cases (w : World) (orig audio : GoStr) (cv : Bool) :
    (PindarM.runRest w orig audio cv).mkdirCalled = none ∧
    ((PindarM.runRest w orig audio cv).exit = 0 →
      ((PindarM.runRest w orig audio cv).wroteFile.isSome ↔
        (w.args.OutputDir ≠ [] ∨ w.args.OutputExt ≠ []))) ∧
    ((PindarM.runRest w orig audio cv).exit = 0 → w.args.OutputDir = [] →
      w.args.OutputExt = [] →
      (PindarM.runRest w orig audio cv).wroteFile = none ∧
      ∃ t, w.api = .ok t ∧ (PindarM.runRest w orig audio cv).stdout = some t) ∧
    (∀ p t, (PindarM.runRest w orig audio cv).wroteFile = some (p, t) →
      p = determineOutputFileName w.args orig ∧ w.api = .ok t) := by
  by_cases ho : w.openOk audio
  swap
  · have hres : PindarM.runRest w orig audio cv = failedRun cv := by
      simp [PindarM.runRest, ho]
    simp [hres, failedRun]
  cases ha : w.api with
  | error e =>
    have hres : PindarM.runRest w orig audio cv =
        ⟨1, true, cv, none, none, none⟩ := by
      simp [PindarM.runRest, ho, ha]
    simp [hres]
  | ok text =>
    by_cases hreq : w.args.OutputDir ≠ [] ∨ w.args.OutputExt ≠ []
    · have hne := determineOutputFileName_ne_nil w.args orig
      by_cases hw : w.writeOk
      · have hres : PindarM.runRest w orig audio cv =
            ⟨0, true, cv, some (determineOutputFileName w.args orig, text),
             none, none⟩ := by
          simp [PindarM.runRest, ho, ha, hreq, hne, hw]
        refine ⟨by simp [hres], ?_, ?_, ?_⟩
        · intro _
          rw [hres]
          exact iff_of_true rfl hreq
        · intro _ h1 h2
          rcases hreq with h | h
          · exact absurd h1 h
          · exact absurd h2 h
        · intro p t hpt
          rw [hres] at hpt
          simp at hpt
          exact ⟨hpt.1.symm, congrArg Except.ok hpt.2⟩
      · have hres : PindarM.runRest w orig audio cv =
            ⟨1, true, cv, none, none, none⟩ := by
          simp [PindarM.runRest, ho, ha, hreq, hne, hw]
        simp [hres]
    · have hres : PindarM.runRest w orig audio cv =
          ⟨0, true, cv, none, some text, none⟩ := by
        simp [PindarM.runRest, ho, ha, hreq]
      refine ⟨by simp [hres], ?_, ?_, ?_⟩
      · intro _
        rw [hres]
        exact iff_of_false (by simp) hreq
      · intro _ h1 h2
        exact ⟨by simp [hres], text, rfl, by simp [hres]⟩
      · intro p t hpt
        rw [hres] at hpt
        simp at hpt

/-- C4 counterexample world: a successful run with no output directory but
with `--output-ext transcript`. -/
def c4World : World :=
  ⟨⟨gs "/a/b/song.mp3", gs "gpt-4o-transcribe", [], [], gs "text",
    [], gs "transcript", gs "cli-key"⟩,
   ⟨[], none, .ok (gs "k"), .ok (gs "k"), true⟩,
   .ok (gs "/tmp/song_converted.mp4"), fun _ => true,
   fun _ => .ok 5, .ok (gs "hello"), true, true⟩

/-- C4 counterexample: the claim says that with no output directory
requested the transcription goes to standard output and no file is
created; but a `main.go` run with only `--output-ext transcript` writes
the file `song.transcript` and prints nothing to stdout. -/
theorem c4_file_written_without_output_dir :
    c4World.args.OutputDir = [] ∧
    (PindarM.mainRun c4World).wroteFile
      = some (gs "song.transcript", gs "hello") ∧
    (PindarM.mainRun c4World).stdout = none ∧
    (PindarM.mainRun c4World).exit = 0 := by
  decide

/-- C4 (amended): in every successful `main.go` run, a file is written if
and only if an output directory or an explicit output extension was
requested; the written file carries the computed output path (the join of
the possibly-empty output directory with the computed name) and the
service's transcription text; when neither was requested the text goes to
standard output and no file is created; and the output directory is never
created by the program. -/
theorem c4_output_routing (w : World) :
    ((PindarM.mainRun w).exit = 0 →
      ((PindarM.mainRun w).wroteFile.isSome ↔
        (w.args.OutputDir ≠ [] ∨ w.args.OutputExt ≠ []))) ∧
    ((PindarM.mainRun w).exit = 0 → w.args.OutputDir = [] →
      w.args.OutputExt = [] →
      (PindarM.mainRun w).wroteFile = none ∧
      ∃ t, w.api = .ok t ∧ (PindarM.mainRun w).stdout = some t) ∧
    (∀ p t, (PindarM.mainRun w).wroteFile = some (p, t) →
      p = determineOutputFileName w.args w.args.File ∧ w.api = .ok t) ∧
    (PindarM.mainRun w).mkdirCalled = none := by
  unfold PindarM.mainRun
  cases hk : (getAPIKey w.args.APIKey w.resolve).1 with
  | error e => simp [failedRun]
  | ok key =>
    by_cases hg : nativelySupported w.args.File
    · simp only [hg, not_true, if_neg, ite_false, if_false]
      have h := PindarM.runRest_cases w w.args.File w.args.File false
      exact ⟨h.2.1, h.2.2.1, h.2.2.2, h.1⟩
    · simp only [hg, not_false_iff, if_pos, ite_true, if_true]
      cases hc : w.convert with
      | error e => simp [failedRun]
      | ok converted =>
        have h := PindarM.runRest_cases w w.args.File converted true
        exact ⟨h.2.1, h.2.2.1, h.2.2.2, h.1⟩

/-- C4 witness: the amended routing exercised at concrete worlds — with an
output directory requested the file appears, and with neither directory
nor extension the text goes to stdout and no file is written. -/
theorem c4_output_routing_witness :
    (PindarM.mainRun { c4World with
        args := { c4World.args with OutputDir := gs "out", OutputExt := [] } }
      ).wroteFile.isSome = true ∧
    (PindarM.mainRun { c4World with
        args := { c4World.args with OutputExt := [] } }).wroteFile = none ∧
    (PindarM.mainRun { c4World with
        args := { c4World.args with OutputExt := [] } }).stdout
      = some (gs "hello") := by
  refine ⟨?_, ?_, ?_⟩
  · exact ((c4_output_routing _).1 (by decide)).mpr (by decide)
  · exact ((c4_output_routing _).2.1 (by decide) (by decide) (by decide)).1
  · rcases ((c4_output_routing { c4World with
        args := { c4World.args with OutputExt := [] } }).2.1 (by decide)
        (by decide) (by decide)).2 with ⟨t, ht, hs⟩
    have h2 : Except.ok (gs "hello") = Except.ok t := ht
    injection h2 with h3
    rwa [← h3] at hs

/-! ### Claim C8 -/

/-- The lower-case ASCII letters. -/
def lowerLetters : List Char :=
  ['a', 'b', 'c', 'd', 'e', 'f', 'g', 'h', 'i', 'j', 'k', 'l', 'm',
   'n', 'o', 'p', 'q', 'r', 's', 't', 'u', 'v', 'w', 'x', 'y', 'z']

/-- `goLowerChar` fixes its argument or produces a lower-case letter. -/
theorem goLowerChar_val (c : Char) :
    goLowerChar c = c ∨ goLowerChar c ∈ lowerLetters := by
  unfold goLowerChar
  split <;> first | exact Or.inl rfl | exact Or.inr (by decide)

/-- Lower-case letters are fixed points of `goLowerChar`. -/
theorem lowerLetters_fixed : ∀ d ∈ lowerLetters, goLowerChar d = d := by
  decide

/-- ASCII lowering is idempotent. -/
theorem goLowerChar_idem (c : Char) :
    goLowerChar (goLowerChar c) = goLowerChar c := by
  rcases goLowerChar_val c with h | h
  · rw [h, h]
  · exact lowerLetters_fixed _ h

/-- ASCII lowering maps nothing onto the path separator except the
separator itself. -/
theorem goLowerChar_eq_slash_iff (c : Char) :
    goLowerChar c = '/' ↔ c = '/' := by
  unfold goLowerChar
  split <;> first | exact Iff.rfl | decide

/-- ASCII lowering maps nothing onto the dot except the dot itself. -/
theorem goLowerChar_eq_dot_iff (c : Char) :
    goLowerChar c = '.' ↔ c = '.' := by
  unfold goLowerChar
  split <;> first | exact Iff.rfl | decide

/-- The extension scan commutes with lowering the scanned characters,
because lowering preserves and reflects dots and separators. -/
theorem goExtLoop_map_lower (rev acc : List Char) :
    goExtLoop (rev.map goLowerChar) (acc.map goLowerChar) =
      (goExtLoop rev acc).map goLowerChar := by
  induction rev generalizing acc with
  | nil => simp [goExtLoop]
  | cons c rest ih =>
    simp only [List.map_cons]
    unfold goExtLoop
    by_cases h1 : c = '/'
    · subst h1
      simp [show goLowerChar '/' = '/' from rfl]
    · have h1l : ¬ goLowerChar c = '/' :=
        fun hl => h1 ((goLowerChar_eq_slash_iff c).mp hl)
      by_cases h2 : c = '.'
      · subst h2
        simp [h1l, show goLowerChar '.' = '.' from rfl]
      · have h2l : ¬ goLowerChar c = '.' :=
          fun hl => h2 ((goLowerChar_eq_dot_iff c).mp hl)
        have hrec := ih (c :: acc)
        simp only [List.map_cons] at hrec
        simp [h1, h2, h1l, h2l, hrec]

/-- `filepath.Ext` commutes with `strings.ToLower`. -/
theorem goExt_goLower (p : GoStr) :
    goExt (goLower p) = goLower (goExt p) := by
  unfold goExt goLower
  rw [← List.map_reverse]
  have h := goExtLoop_map_lower p.reverse []
  simpa using h

/-- Unfolded form of `getFileExtension`: lower-case the extension with its
leading dot dropped. -/
theorem getFileExtension_eq (p : GoStr) :
    getFileExtension p = goLower ((goExt p).drop 1) := by
  unfold getFileExtension
  cases h : goExt p with
  | nil => simp [goLower]
  | cons a t => simp

/-- Lowering a string twice equals lowering it once. -/
theorem goLower_idem (s : GoStr) : goLower (goLower s) = goLower s := by
  unfold goLower
  rw [List.map_map]
  apply List.map_congr_left
  intro a _
  exact goLowerChar_idem a

/-- `getFileExtension` factors through the lower-cased filename. -/
theorem getFileExtension_goLower (p : GoStr) :
    getFileExtension p = (goExt (goLower p)).drop 1 := by
  rw [getFileExtension_eq, goExt_goLower]
  unfold goLower
  rw [List.map_drop]

/-- Case changes anywhere in the filename do not affect the extracted
extension. -/
theorem getFileExtension_congr {s t : GoStr} (h : goLower s = goLower t) :
    getFileExtension s = getFileExtension t := by
  rw [getFileExtension_goLower, getFileExtension_goLower, h]

/-- The extension scan ignores everything before a path separator. -/
theorem goExtLoop_append_slash (rev : List Char) :
    ∀ (rest acc : List Char),
      goExtLoop (rev ++ '/' :: rest) acc = goExtLoop rev acc := by
  induction rev with
  | nil => intro rest acc; simp [goExtLoop]
  | cons c r ih =>
    intro rest acc
    simp only [List.cons_append]
    unfold goExtLoop
    by_cases h1 : c = '/'
    · simp [h1]
    · by_cases h2 : c = '.'
      · simp [h1, h2]
      · simp only [h1, h2, if_neg, ite_false, if_false]
        exact ih rest (c :: acc)

/-- Leading path components do not affect the extracted extension. -/
theorem getFileExtension_dir (d f : GoStr) :
    getFileExtension (d ++ '/' :: f) = getFileExtension f := by
  unfold getFileExtension
  have : goExt (d ++ '/' :: f) = goExt f := by
    unfold goExt
    rw [List.reverse_append, List.reverse_cons, List.append_assoc,
      List.singleton_append]
    exact goExtLoop_append_slash f.reverse d.reverse []
  rw [this]

/-- Scanning a reversed segment free of dots and separators, the scan
passes through it and stops at the dot that follows. -/
theorem goExtLoop_segment (rev : List Char)
    (hrev : ∀ c ∈ rev, c ≠ '/' ∧ c ≠ '.') :
    ∀ (rest acc : List Char),
      goExtLoop (rev ++ '.' :: rest) acc = '.' :: (rev.reverse ++ acc) := by
  induction rev with
  | nil => intro rest acc; simp [goExtLoop]
  | cons c r ih =>
    intro rest acc
    have hc := hrev c (by simp)
    have hr : ∀ x ∈ r, x ≠ '/' ∧ x ≠ '.' :=
      fun x hx => hrev x (by simp [hx])
    simp only [List.cons_append]
    unfold goExtLoop
    simp only [hc.1, hc.2, if_neg, ite_false, if_false]
    rw [ih hr rest (c :: acc)]
    simp

/-- When the final dot-delimited segment is free of dots and separators,
the extracted extension is exactly that segment, lower-cased: the result
does not depend on anything before the final dot. -/
theorem getFileExtension_final_segment (a b : GoStr)
    (hb : ∀ c ∈ b, c ≠ '/' ∧ c ≠ '.') :
    getFileExtension (a ++ '.' :: b) = goLower b := by
  have hext : goExt (a ++ '.' :: b) = '.' :: b := by
    unfold goExt
    rw [List.reverse_append, List.reverse_cons, List.append_assoc,
      List.singleton_append]
    rw [goExtLoop_segment b.reverse
      (fun c hc => hb c (List.mem_reverse.mp hc)) a.reverse []]
    simp
  unfold getFileExtension
  rw [hext]

/-- C8: the native-format check is case-insensitive and depends only on
the final dot-delimited segment of the base name, for both the `main.go`
gate (`isFormatSupported ∘ getFileExtension`, i.e. `nativelySupported`)
and the variant's filename-level `isFormatSupported`: filenames that agree
after lowering classify identically; leading path components do not affect
the result; the segment after a final dot (itself free of dots and
separators) determines the result regardless of what precedes that dot;
and the spec's `AUDIO.MP3`/`audio.mp3` example is an instance. -/
theorem c8_gate_case_insensitive :
    (∀ s t : GoStr, goLower s = goLower t →
      nativelySupported s = nativelySupported t ∧
      P3.isFormatSupported s = P3.isFormatSupported t) ∧
    (∀ d f : GoStr,
      nativelySupported (d ++ '/' :: f) = nativelySupported f ∧
      P3.isFormatSupported (d ++ '/' :: f) = P3.isFormatSupported f) ∧
    (∀ a b : GoStr, (∀ c ∈ b, c ≠ '/' ∧ c ≠ '.') → ∀ a2 : GoStr,
      nativelySupported (a ++ '.' :: b) = nativelySupported (a2 ++ '.' :: b) ∧
      P3.isFormatSupported (a ++ '.' :: b)
        = P3.isFormatSupported (a2 ++ '.' :: b)) ∧
    (nativelySupported (gs "AUDIO.MP3") = nativelySupported (gs "audio.mp3") ∧
      P3.isFormatSupported (gs "AUDIO.MP3")
        = P3.isFormatSupported (gs "audio.mp3")) := by
  refine ⟨?_, ?_, ?_, by decide⟩
  · intro s t h
    have he := getFileExtension_congr h
    exact ⟨by unfold nativelySupported; rw [he],
      by unfold P3.isFormatSupported; rw [he]⟩
  · intro d f
    have he := getFileExtension_dir d f
    exact ⟨by unfold nativelySupported; rw [he],
      by unfold P3.isFormatSupported; rw [he]⟩
  · intro a b hb a2
    have h1 := getFileExtension_final_segment a b hb
    have h2 := getFileExtension_final_segment a2 b hb
    exact ⟨by unfold nativelySupported; rw [h1, h2],
      by unfold P3.isFormatSupported; rw [h1, h2]⟩

/-- C8 witness: the invariances applied at concrete filenames. -/
theorem c8_gate_case_insensitive_witness :
    nativelySupported (gs "AUDIO.Mp3") = nativelySupported (gs "audio.mP3") ∧
    nativelySupported (gs "dir/sub/audio.mp3")
      = nativelySupported (gs "sub/audio.mp3") ∧
    nativelySupported (gs "x.y.flac") = nativelySupported (gs "z.flac") := by
  refine ⟨?_, ?_, ?_⟩
  · exact (c8_gate_case_insensitive.1 (gs "AUDIO.Mp3") (gs "audio.mP3")
      (by decide)).1
  · exact (c8_gate_case_insensitive.2.1 (gs "dir") (gs "sub/audio.mp3")).1
  · exact (c8_gate_case_insensitive.2.2.1 (gs "x.y") (gs "flac")
      (by decide) (gs "z")).1

/-! ### Claim C10 -/

/-- Every branch of the `main.go` pipeline tail reports the
conversion-attempted flag it was entered with. -/
theorem PindarM.runRestConvFlagMain (w : World) (orig audio : GoStr) (cv : Bool) :
    (PindarM.runRest w orig audio cv).conversionAttempted = cv := by
  simp only [PindarM.runRest, failedRun]
  repeat first
    | rfl
    | split

/-- Every branch of the variant pipeline tail reports the
conversion-attempted flag it was entered with. -/
theorem P3.runRestConvFlagVariant (w : World) (audio : GoStr) (cv : Bool) :
    (P3.runRest w audio cv).conversionAttempted = cv := by
  simp only [P3.runRest, failedRun]
  repeat first
    | rfl
    | split

/-- If no dot occurs before the first separator of the reversed scan, the
extension scan returns the empty string. -/
theorem goExtLoop_no_dot (rev : List Char)
    (h : ∀ c ∈ rev.takeWhile (· ≠ '/'), c ≠ '.') :
    ∀ acc, goExtLoop rev acc = [] := by
  induction rev with
  | nil => intro acc; rfl
  | cons c rest ih =>
    intro acc
    unfold goExtLoop
    by_cases h1 : c = '/'
    · simp [h1]
    · have htw : (c :: rest).takeWhile (· ≠ '/') =
          c :: rest.takeWhile (· ≠ '/') := by
        simp [List.takeWhile_cons, h1]
      have hc : c ≠ '.' := h c (by rw [htw]; exact List.mem_cons_self _ _)
      have hrest : ∀ x ∈ rest.takeWhile (· ≠ '/'), x ≠ '.' :=
        fun x hx => h x (by rw [htw]; exact List.mem_cons_of_mem _ hx)
      simp only [h1, hc, if_neg, ite_false, if_false]
      exact ih hrest (c :: acc)

/-- A filename whose base name contains no dot has an empty extracted
extension. -/
theorem getFileExtension_no_dot (f : GoStr) (h : '.' ∉ goBase f) :
    getFileExtension f = [] := by
  have hext : goExt f = [] := by
    unfold goExt
    cases hrev : f.reverse with
    | nil => rfl
    | cons r0 rtl =>
      by_cases h0 : r0 = '/'
      · subst h0
        simp [goExtLoop]
      · -- no trailing slash: the base name is the final slash-free segment
        have hfne : f ≠ [] := by
          intro hf
          rw [hf] at hrev
          simp at hrev
        have hq : f.reverse.dropWhile (· = '/') = f.reverse := by
          rw [hrev]
          rw [List.dropWhile_cons]
          simp [h0]
        have hbase : goBase f =
            (f.reverse.takeWhile (· ≠ '/')).reverse := by
          unfold goBase
          simp only [hfne, if_neg, ite_false, if_false]
          rw [hq, List.reverse_reverse]
          have htne : (f.reverse.takeWhile (· ≠ '/')).reverse ≠ [] := by
            rw [hrev]
            rw [List.takeWhile_cons]
            simp [h0]
          simp only [htne, if_neg, ite_false, if_false]
        rw [hbase] at h
        rw [← hrev]
        apply goExtLoop_no_dot
        intro c hc hdot
        subst hdot
        exact h (by rw [List.mem_reverse]; exact hc)
  unfold getFileExtension
  rw [hext]

/-- C10: for a filename whose base name contains no dot, and for any
filename extended with a trailing dot, the extracted extension is empty,
the format gates (both variants) classify the file as not natively
supported, and both orchestrators then take the conversion path once
credential resolution has succeeded. -/
theorem c10_extensionless_converted :
    (∀ f : GoStr, '.' ∉ goBase f →
      getFileExtension f = [] ∧ nativelySupported f = false ∧
      P3.isFormatSupported f = false) ∧
    (∀ f : GoStr,
      getFileExtension (f ++ ['.']) = [] ∧
      nativelySupported (f ++ ['.']) = false ∧
      P3.isFormatSupported (f ++ ['.']) = false) ∧
    (∀ w : World, nativelySupported w.args.File = false →
      (∃ k, (getAPIKey w.args.APIKey w.resolve).1 = .ok k) →
      (PindarM.mainRun w).conversionAttempted = true) ∧
    (∀ w : World, P3.isFormatSupported w.args.File = false →
      (∃ k, (getAPIKey w.args.APIKey w.resolve).1 = .ok k) →
      (P3.mainRun w).conversionAttempted = true) := by
  refine ⟨?_, ?_, ?_, ?_⟩
  · intro f h
    have he := getFileExtension_no_dot f h
    refine ⟨he, ?_, ?_⟩
    · unfold nativelySupported
      rw [he]
      decide
    · unfold P3.isFormatSupported
      rw [he]
      decide
  · intro f
    have hext : goExt (f ++ ['.']) = ['.'] := by
      unfold goExt
      rw [List.reverse_append]
      simp [goExtLoop]
    have he : getFileExtension (f ++ ['.']) = [] := by
      unfold getFileExtension
      rw [hext]
      rfl
    refine ⟨he, ?_, ?_⟩
    · unfold nativelySupported
      rw [he]
      decide
    · unfold P3.isFormatSupported
      rw [he]
      decide
  · rintro w hg ⟨k, hk⟩
    unfold PindarM.mainRun
    rw [hk]
    have hng : ¬ nativelySupported w.args.File = true := by
      rw [hg]
      simp
    simp only [hng, not_false_iff, if_pos, ite_true, if_true]
    cases hc : w.convert with
    | error e => rfl
    | ok converted => exact PindarM.runRestConvFlagMain w w.args.File converted true
  · rintro w hg ⟨k, hk⟩
    unfold P3.mainRun
    rw [hk]
    have hng : ¬ P3.isFormatSupported w.args.File = true := by
      rw [hg]
      simp
    simp only [hng, not_false_iff, if_pos, ite_true, if_true]
    cases hc : w.convert with
    | error e => rfl
    | ok converted => exact P3.runRestConvFlagVariant w converted true

/-- C10 witness: an extensionless name and a trailing-dot name have empty
extensions and are not natively supported, and such a run attempts
conversion. -/
theorem c10_extensionless_converted_witness :
    getFileExtension (gs "audio") = [] ∧
    nativelySupported (gs "audio") = false ∧
    getFileExtension (gs "audio.") = [] ∧
    (PindarM.mainRun { c1World with
        args := { c1World.args with File := gs "audio" } }).conversionAttempted
      = true := by
  refine ⟨?_, ?_, ?_, ?_⟩
  · exact ((c10_extensionless_converted.1 (gs "audio") (by decide))).1
  · exact ((c10_extensionless_converted.1 (gs "audio") (by decide))).2.1
  · exact (c10_extensionless_converted.2.1 (gs "audio")).1
  · exact c10_extensionless_converted.2.2.1 _ (by decide)
      ⟨gs "cli-key", by decide⟩

/-! ### Claim C9 -/

/-- Decoding a hex digit produced by the encoder recovers the value. -/
theorem hexVal_hexDigit (n : Nat) (h : n < 16) :
    hexVal (hexDigit n) = some n := by
  interval_cases n <;> rfl

/-- The decoder consumes an escaped quote. -/
theorem parse_esc_quote (u : GoStr) :
    parseStringBody ('\\' :: '"' :: u) =
      Option.map (fun p => ('"' :: p.1, p.2)) (parseStringBody u) := by
  rw [parseStringBody.eq_def]
  cases hp : parseStringBody u with
  | none => simp [hp]
  | some p => simp [hp]

/-- The decoder consumes an escaped backslash. -/
theorem parse_esc_backslash (u : GoStr) :
    parseStringBody ('\\' :: '\\' :: u) =
      Option.map (fun p => ('\\' :: p.1, p.2)) (parseStringBody u) := by
  rw [parseStringBody.eq_def]
  cases hp : parseStringBody u with
  | none => simp [hp]
  | some p => simp [hp]

/-- The decoder consumes an escaped newline. -/
theorem parse_esc_n (u : GoStr) :
    parseStringBody ('\\' :: 'n' :: u) =
      Option.map (fun p => ('\n' :: p.1, p.2)) (parseStringBody u) := by
  rw [parseStringBody.eq_def]
  cases hp : parseStringBody u with
  | none => simp [hp]
  | some p => simp [hp]

/-- The decoder consumes an escaped carriage return. -/
theorem parse_esc_r (u : GoStr) :
    parseStringBody ('\\' :: 'r' :: u) =
      Option.map (fun p => ('\r' :: p.1, p.2)) (parseStringBody u) := by
  rw [parseStringBody.eq_def]
  cases hp : parseStringBody u with
  | none => simp [hp]
  | some p => simp [hp]

/-- The decoder consumes an escaped tab. -/
theorem parse_esc_t (u : GoStr) :
    parseStringBody ('\\' :: 't' :: u) =
      Option.map (fun p => ('\t' :: p.1, p.2)) (parseStringBody u) := by
  rw [parseStringBody.eq_def]
  cases hp : parseStringBody u with
  | none => simp [hp]
  | some p => simp [hp]

/-- The decoder consumes the `<` escape of `<`. -/
theorem parse_esc_u003c (u : GoStr) :
    parseStringBody ('\\' :: 'u' :: '0' :: '0' :: '3' :: 'c' :: u) =
      Option.map (fun p => ('<' :: p.1, p.2)) (parseStringBody u) := by
  rw [parseStringBody.eq_def]
  cases hp : parseStringBody u with
  | none => simp [hexVal, hp]
  | some p => simp [hexVal, hp]

/-- The decoder consumes the `>` escape of `>`. -/
theorem parse_esc_u003e (u : GoStr) :
    parseStringBody ('\\' :: 'u' :: '0' :: '0' :: '3' :: 'e' :: u) =
      Option.map (fun p => ('>' :: p.1, p.2)) (parseStringBody u) := by
  rw [parseStringBody.eq_def]
  cases hp : parseStringBody u with
  | none => simp [hexVal, hp]
  | some p => simp [hexVal, hp]

/-- The decoder consumes the `&` escape of `&`. -/
theorem parse_esc_u0026 (u : GoStr) :
    parseStringBody ('\\' :: 'u' :: '0' :: '0' :: '2' :: '6' :: u) =
      Option.map (fun p => ('&' :: p.1, p.2)) (parseStringBody u) := by
  rw [parseStringBody.eq_def]
  cases hp : parseStringBody u with
  | none => simp [hexVal, hp]
  | some p => simp [hexVal, hp]

/-- The decoder consumes the `U+2028` escape of the line separator. -/
theorem parse_esc_u2028 (u : GoStr) :
    parseStringBody ('\\' :: 'u' :: '2' :: '0' :: '2' :: '8' :: u) =
      Option.map (fun p => ('\u2028' :: p.1, p.2)) (parseStringBody u) := by
  rw [parseStringBody.eq_def]
  cases hp : parseStringBody u with
  | none => simp [hexVal, hp]
  | some p => simp [hexVal, hp]

/-- The decoder consumes the `U+2029` escape of the paragraph separator. -/
theorem parse_esc_u2029 (u : GoStr) :
    parseStringBody ('\\' :: 'u' :: '2' :: '0' :: '2' :: '9' :: u) =
      Option.map (fun p => ('\u2029' :: p.1, p.2)) (parseStringBody u) := by
  rw [parseStringBody.eq_def]
  cases hp : parseStringBody u with
  | none => simp [hexVal, hp]
  | some p => simp [hexVal, hp]

/-- The decoder consumes a `\u00XY` control-character escape. -/
theorem parse_esc_ctrl (c : Char) (h : c.toNat < 32) (u : GoStr) :
    parseStringBody
        ('\\' :: 'u' :: '0' :: '0' :: hexDigit (c.toNat / 16)
          :: hexDigit (c.toNat % 16) :: u) =
      Option.map (fun p => (c :: p.1, p.2)) (parseStringBody u) := by
  have hv0 : hexVal '0' = some 0 := rfl
  have hv1 := hexVal_hexDigit _ (show c.toNat / 16 < 16 by omega)
  have hv2 := hexVal_hexDigit _ (show c.toNat % 16 < 16 by omega)
  have hn : ((0 * 16 + 0) * 16 + c.toNat / 16) * 16 + c.toNat % 16
      = c.toNat := by omega
  rw [parseStringBody.eq_def]
  cases hp : parseStringBody u with
  | none =>
    simp only [hv0, hv1, hv2, hp]
    simp
  | some p =>
    simp only [hv0, hv1, hv2, hp]
    rw [hn]
    simp [Char.ofNat_toNat, show c.toNat < 55296 from by omega]

/-- The decoder consumes a literal (unescaped) character. -/
theorem parse_lit (c : Char) (h1 : c ≠ '"') (h2 : c ≠ '\\') (u : GoStr) :
    parseStringBody (c :: u) =
      Option.map (fun p => (c :: p.1, p.2)) (parseStringBody u) := by
  rw [parseStringBody.eq_def]
  cases hp : parseStringBody u with
  | none => simp [h1, h2, hp]
  | some p => simp [h1, h2, hp]

/-- One-character round trip: decoding the escape of `c` yields `c` in
front of whatever the rest decodes to. -/
theorem parse_escapeChar (c : Char) (u : GoStr) :
    parseStringBody (escapeChar c ++ u) =
      Option.map (fun p => (c :: p.1, p.2)) (parseStringBody u) := by
  by_cases h1 : c = '"'
  · subst h1; exact parse_esc_quote u
  · by_cases h2 : c = '\\'
    · subst h2; exact parse_esc_backslash u
    · by_cases h3 : c = '\n'
      · subst h3; exact parse_esc_n u
      · by_cases h4 : c = '\r'
        · subst h4; exact parse_esc_r u
        · by_cases h5 : c = '\t'
          · subst h5; exact parse_esc_t u
          · by_cases h6 : c = '<'
            · subst h6
              rw [show escapeChar '<' = ['\\', 'u', '0', '0', '3', 'c']
                from rfl]
              exact parse_esc_u003c u
            · by_cases h7 : c = '>'
              · subst h7
                rw [show escapeChar '>' = ['\\', 'u', '0', '0', '3', 'e']
                  from rfl]
                exact parse_esc_u003e u
              · by_cases h8 : c = '&'
                · subst h8
                  rw [show escapeChar '&' = ['\\', 'u', '0', '0', '2', '6']
                    from rfl]
                  exact parse_esc_u0026 u
                · by_cases h9 : c.toNat < 0x20
                  · have he : escapeChar c = ['\\', 'u', '0', '0',
                        hexDigit (c.toNat / 16), hexDigit (c.toNat % 16)] := by
                      simp [escapeChar, h1, h2, h3, h4, h5, h6, h7, h8, h9]
                    rw [he]
                    exact parse_esc_ctrl c h9 u
                  · by_cases h10 : c = '\u2028'
                    · subst h10
                      rw [show escapeChar '\u2028'
                          = ['\\', 'u', '2', '0', '2', '8'] from by
                        simp [escapeChar, h9]]
                      exact parse_esc_u2028 u
                    · by_cases h11 : c = '\u2029'
                      · subst h11
                        rw [show escapeChar '\u2029'
                            = ['\\', 'u', '2', '0', '2', '9'] from by
                          simp [escapeChar, h9]]
                        exact parse_esc_u2029 u
                      · have he : escapeChar c = [c] := by
                          simp [escapeChar, h1, h2, h3, h4, h5, h6, h7, h8,
                            h9, h10, h11]
                        rw [he]
                        exact parse_lit c h1 h2 u

/-- String round trip: decoding the escaped string followed by a closing
quote yields the original string and the remaining input. -/
theorem parse_escapeString (s : GoStr) :
    ∀ u : GoStr,
      parseStringBody (escapeString s ++ '"' :: u) = some (s, u) := by
  induction s with
  | nil =>
    intro u
    rw [show escapeString [] = [] from rfl]
    rw [List.nil_append, parseStringBody.eq_def]
    simp
  | cons c s ih =>
    intro u
    have hes : escapeString (c :: s) = escapeChar c ++ escapeString s := by
      simp [escapeString]
    rw [hes, List.append_assoc, parse_escapeChar, ih u]
    rfl

/-- Document round trip: unmarshalling the document `goMarshalConfig`
produces recovers the record exactly, for every secret string. -/
theorem goUnmarshal_goMarshal (secret : GoStr) :
    goUnmarshalConfig (goMarshalConfig ⟨secret⟩) = some ⟨secret⟩ := by
  have hpre : goMarshalConfig ⟨secret⟩ =
      '\x7b' :: '\n' :: ' ' :: ' ' :: '"' ::
        (escapeString (gs "openai_api_key") ++ '"' :: ':' :: ' ' :: '"' ::
          (escapeString secret ++ '"' :: '\n' :: '\x7d' :: [])) := by
    rw [show escapeString (gs "openai_api_key") = gs "openai_api_key"
      from rfl]
    rfl
  rw [hpre]
  simp [goUnmarshalConfig, jsonWs, parse_escapeString]

/-- C9: saving a credential record and loading it back yields exactly the
same secret string, for every secret; and loading when the config file
does not exist returns the empty record, not an error. -/
theorem c9_save_load_roundtrip :
    (∀ (secret : GoStr) (fs : ConfigFS),
      loadConfig (saveConfig ⟨secret⟩ fs).fsAfter = .ok ⟨secret⟩) ∧
    loadConfig none = .ok ⟨[]⟩ := by
  refine ⟨?_, rfl⟩
  intro secret fs
  show loadConfig (some (goMarshalConfig ⟨secret⟩)) = .ok ⟨secret⟩
  simp [loadConfig, goUnmarshal_goMarshal]
